import Mathlib

/-!
Verification development for the MAAS-style bare-metal provisioning core of
the repository: constraint translation, hardware-topology parsing, network
resolution, instance lookup, idempotent release, bootstrap-state persistence,
and the workload-process status formatter.

Go maps keyed by strings are embedded as association lists together with a
first-occurrence replacing insert, so that maps built by repeated insertion
have pairwise-distinct keys and `last write wins` semantics.
-/

namespace JujuSpec

/-- Left-biased choice on options, mirroring `take the first hit`. -/
def optOr {α : Type} : Option α → Option α → Option α
  | some v, _ => some v
  | none, b => b

/-- Lookup in an association list: the value of the first pair with the key. -/
def mapGet {α : Type} : List (String × α) → String → Option α
  | [], _ => none
  | (k, v) :: m, k1 => if k1 = k then some v else mapGet m k1

/-- Insertion into an association list as a Go map assignment behaves:
replace the value of the first pair holding the key, or append a new pair. -/
def mapInsert {α : Type} : List (String × α) → String → α → List (String × α)
  | [], k, v => [(k, v)]
  | (k1, v1) :: m, k, v =>
    if k1 = k then (k, v) :: m else (k1, v1) :: mapInsert m k v

/-- The keys of an association list, in order. -/
def mapKeys {α : Type} (m : List (String × α)) : List String :=
  m.map Prod.fst

/-- How many pairs of the association list hold the key. -/
def keyCount {α : Type} (m : List (String × α)) (k : String) : Nat :=
  m.countP (fun kv => decide (kv.1 = k))

/-- The value of the LAST pair carrying the key, if any: the `last write
wins` reading of a pair sequence. -/
def lastGet {α : Type} : List (String × α) → String → Option α
  | [], _ => none
  | (k1, v1) :: m, k => optOr (lastGet m k) (if k = k1 then some v1 else none)

/-- Build a map from a pair sequence by repeated insertion. -/
def mapFromPairs {α : Type} (l : List (String × α)) : List (String × α) :=
  l.foldl (fun m p => mapInsert m p.1 p.2) []

/-- Insert every pair of a sequence, left to right, into an accumulator map. -/
def insertEntries {α : Type} (acc : List (String × α)) (l : List (String × α)) :
    List (String × α) :=
  l.foldl (fun m p => mapInsert m p.1 p.2) acc

/-- The error taxonomy of the provisioning core (spec section 7), restricted
to the variants the claims mention.  The names mirror the Go sentinel errors
`environs.ErrNoInstances`, `environs.ErrPartialInstances` and
`environs.ErrNotBootstrapped`. -/
inductive EnvErr where
  | errNoInstances
  | errPartialInstances
  | errNotBootstrapped
  | parseError (msg : String)
deriving DecidableEq

/-! ## Constraint Translator (spec section 4.1)

`constraints.Value` with the fields the translator reads; optional fields are
`Option`s, matching the Go pointer fields.  Query parameters (`url.Values`)
are association lists from parameter name to value list. -/

structure ConstraintsValue where
  arch : Option String := none
  cpuCores : Option Nat := none
  mem : Option Nat := none
  cpuPower : Option Nat := none
  rootDisk : Option Nat := none
  tags : Option (List String) := none
deriving DecidableEq

/-- Modelled from the spec: `convertConstraints` (the implementation is not
in the sources, only its test `TestConvertConstraints`).  Maps architecture,
CPU-core-count, memory, and the tag list each to a single named query
parameter, joining multi-valued tags with a comma; CPU power and root disk
are dropped; absent fields produce no parameter, and never an empty-string
parameter. -/
def convertConstraints (cons : ConstraintsValue) : List (String × List String) :=
  (match cons.arch with
   | some a => [("arch", [a])]
   | none => []) ++
  (match cons.cpuCores with
   | some c => [("cpu_count", [toString c])]
   | none => []) ++
  (match cons.mem with
   | some m => [("mem", [toString m])]
   | none => []) ++
  (match cons.tags with
   | some (t :: ts) => [("tags", [String.intercalate "," (t :: ts)])]
   | _ => [])

/-- Modelled from the spec: `addNetworks` (called `translateNetworkFilter`
in the spec; the implementation is not in the sources, only its test
`TestConvertNetworks`).  Appends a `networks` parameter listing the included
names and a `not_networks` parameter listing the excluded names to the given
query values, each omitted when its set is empty, values in input order. -/
def addNetworks (vals : List (String × List String))
    (includeNetworks excludeNetworks : List String) : List (String × List String) :=
  (vals ++
    (match includeNetworks with
     | [] => []
     | ns => [("networks", ns)])) ++
  (match excludeNetworks with
   | [] => []
   | ns => [("not_networks", ns)])

/-- Modelled from the spec: the query parameters carried by the acquire
request that `acquireNode` issues (the implementation is not in the sources,
only the tests `TestAcquireNode`, `TestAcquireNodeByName`,
`TestAcquireNodePassedAgentName`).  The translated constraints and network
filter are sent; the agent-identifying orchestrator tag `agent_name` is
always attached; a `name` parameter targeting a specific node is sent
exactly when the hostname hint is non-empty. -/
def acquireNodeParams (hostnameHint : String) (cons : ConstraintsValue)
    (includeNetworks excludeNetworks : List String) (agentName : String) :
    List (String × List String) :=
  (addNetworks (convertConstraints cons) includeNetworks excludeNetworks ++
    [("agent_name", [agentName])]) ++
  (if hostnameHint = "" then [] else [("name", [hostnameHint])])

/-! ## Hardware Topology Parser (spec section 4.2)

A hardware report is a hierarchical document; each node carries a class, an
optional `logicalname` and an optional `serial` (MAC) attribute, and a list
of children.  A report that is not well-formed structured markup is embedded
as `none`. -/

inductive HWNode where
  | mk (cls : String) (logicalname serial : Option String) (children : List HWNode)

/-- The children of a hardware-report node. -/
def HWNode.children : HWNode → List HWNode
  | .mk _ _ _ cs => cs

/-- The MAC-to-interface-name entry contributed by one node of the report:
present exactly when the node carries the `network` class together with both
a `logicalname` and a `serial` attribute. -/
def nodeEntry (cls : String) (ln ser : Option String) : List (String × String) :=
  if cls = "network" then
    match ln, ser with
    | some name, some mac => [(mac, name)]
    | _, _ => []
  else []

/-- All qualifying MAC-to-name entries of a forest, in traversal order
(the entry of a node before its descendants, children before siblings). -/
def netEntriesList : List HWNode → List (String × String)
  | [] => []
  | HWNode.mk cls ln ser children :: rest =>
    nodeEntry cls ln ser ++ netEntriesList children ++ netEntriesList rest

/-- Modelled from the spec: the recursive-descent walk of
`extractInterfaces` (the implementation is not in the sources, only its test
`TestExtractInterfaces`).  The accumulator map receives, at every depth, one
entry per network-class node carrying both attributes; MAC is the key, so a
later occurrence overwrites an earlier one. -/
def walkNodes (acc : List (String × String)) : List HWNode → List (String × String)
  | [] => acc
  | HWNode.mk cls ln ser children :: rest =>
    walkNodes (walkNodes (insertEntries acc (nodeEntry cls ln ser)) children) rest

/-- Modelled from the spec: `extractInterfaces(hardwareReportBytes)`.
A malformed document (`none`) fails with a `ParseError`; otherwise the
recursive walk produces the MAC-to-interface-name mapping and no error. -/
def extractInterfaces (doc : Option (List HWNode)) :
    Except EnvErr (List (String × String)) :=
  match doc with
  | none => .error (.parseError "malformed hardware report")
  | some nodes => .ok (walkNodes [] nodes)

/-! ## Network Resolver (spec section 4.3) -/

/-- A network membership record of a node: network name, the MAC address
linking it to a physical interface, the address block and the VLAN tag. -/
structure NetworkMembership where
  networkName : String
  macAddress : String
  cidr : String
  vlanTag : Nat
deriving DecidableEq

/-- `network.Info`: the descriptor emitted per usable interface. -/
structure NetworkInfo where
  macAddress : String
  cidr : String
  networkName : String
  providerId : String
  vlanTag : Nat
  interfaceName : String
  disabled : Bool
deriving DecidableEq

/-- The descriptor built for a membership whose MAC resolved to an interface
name: `disabled` is set exactly when the include-set is non-empty and the
network name of the membership is absent from it. -/
def mkNetworkInfo (includeNetworkNames : List String) (mem : NetworkMembership)
    (ifname : String) : NetworkInfo :=
  { macAddress := mem.macAddress
    cidr := mem.cidr
    networkName := mem.networkName
    providerId := mem.networkName
    vlanTag := mem.vlanTag
    interfaceName := ifname
    disabled := decide (includeNetworkNames ≠ [] ∧
      mem.networkName ∉ includeNetworkNames) }

/-- Resolution of one membership against the discovered interfaces: a
descriptor when the MAC of the membership has a matching interface name, nothing
otherwise. -/
def resolveMembership (interfaces : List (String × String))
    (includeNetworkNames : List String) (mem : NetworkMembership) :
    Option NetworkInfo :=
  match mapGet interfaces mem.macAddress with
  | none => none
  | some ifname => some (mkNetworkInfo includeNetworkNames mem ifname)

/-- Modelled from the spec: `setupNetworks(node, includeNetworkNames)` (the
implementation is not in the sources, only the tests `TestSetupNetworks`,
`TestSetupNetworksPartialMatch`, `TestSetupNetworksNoMatch`).  The
hardware report of the node is parsed into the MAC-to-interface mapping; then for every
membership whose MAC has a matching interface name a descriptor is emitted,
and memberships whose MAC matches no discovered interface are silently
dropped. -/
def setupNetworks (report : Option (List HWNode))
    (memberships : List NetworkMembership) (includeNetworkNames : List String) :
    Except EnvErr (List NetworkInfo) :=
  match extractInterfaces report with
  | .error e => .error e
  | .ok interfaces =>
    .ok (memberships.filterMap (resolveMembership interfaces includeNetworkNames))

/-! ## Instance Query Engine (spec section 4.5) -/

/-- A node known to the fleet, reduced to its opaque identifier. -/
structure MaasInstance where
  id : String
deriving DecidableEq

/-- Resolution of one requested identifier against the node list of the fleet. -/
def resolveOne (known : List MaasInstance) (i : String) : Option MaasInstance :=
  known.find? (fun n => decide (n.id = i))

/-- Modelled from the spec: `Instances(ids)` (the implementation is not in
the sources, only the `TestInstances...` tests).  An empty or unset id list
fails with `ErrNoInstances` and a nil result; when none of the ids resolve it
also fails with `ErrNoInstances` and a nil result; when only some resolve it
returns a full-length positional result with absent markers at unresolved
positions together with `ErrPartialInstances`; when all resolve it returns
the nodes in requested order with no error.  The first component is the
result slice (`none` embeds the Go nil slice), the second the error. -/
def instancesLookup (known : List MaasInstance) (ids : List String) :
    Option (List (Option MaasInstance)) × Option EnvErr :=
  if ids = [] then (none, some .errNoInstances)
  else
    let resolved := ids.map (resolveOne known)
    if resolved.all (fun r => r.isNone) then (none, some .errNoInstances)
    else if resolved.any (fun r => r.isNone) then
      (some resolved, some .errPartialInstances)
    else (some resolved, none)

/-! ## Node release (spec section 4.4) -/

/-- A fleet node together with its ownership flag: whether it is currently
acquired by this orchestrator. -/
structure FleetNode where
  id : String
  owned : Bool
deriving DecidableEq

/-- The fleet node bookkeeping plus the log of bulk release calls issued
(most recent last). -/
structure FleetState where
  nodes : List FleetNode
  releaseBatches : List (List String)
deriving DecidableEq

/-- Modelled from the spec: `StopInstances(ids...)` / `release` (the
implementation is not in the sources, only the `TestStopInstances...`
tests).  An empty id list returns at once with no remote call; otherwise a
single bulk release call is issued: every listed node the orchestrator owns
becomes free, nodes not listed and nodes already free are untouched, and
no error is reported. -/
def stopInstances (st : FleetState) (ids : List String) :
    FleetState × Option EnvErr :=
  if ids = [] then (st, none)
  else
    ({ nodes := st.nodes.map (fun n =>
         if n.id ∈ ids then { n with owned := false } else n)
       releaseBatches := st.releaseBatches ++ [ids] }, none)

/-! ## Cluster Bootstrap State Store (spec section 4.6)

The durable store holds at most one bootstrap-state record; `none` embeds
the store with no record. -/

/-- Modelled from the spec: `readStateServerInstances()` (the implementation
is not in the sources, only the `TestStateServerInstances...` tests).  Fails
with `ErrNotBootstrapped` when no record exists, otherwise returns the
persisted identifier sequence, which may legitimately be empty. -/
def readStateServerInstances (stor : Option (List String)) :
    Except EnvErr (List String) :=
  match stor with
  | none => .error .errNotBootstrapped
  | some ids => .ok ids

/-- Modelled from the spec: `writeState(ids)` performs a whole-record
replacement of the bootstrap-state record in durable storage. -/
def writeState (_stor : Option (List String)) (ids : List String) :
    Option (List String) :=
  some ids

/-! ## Workload-process status formatter (src/process/status/status.go) -/

/-- The part of a process definition the formatter reads. -/
structure ProcessDefinition where
  name : String
  type : String
deriving DecidableEq

/-- The status carried inside the process details. -/
structure PluginStatus where
  label : String
deriving DecidableEq

/-- The part of the process details the formatter reads. -/
structure ProcessDetails where
  id : String
  status : PluginStatus
deriving DecidableEq

/-- `api.Process` as consumed by `Format`. -/
structure ApiProcess where
  definition : ProcessDefinition
  details : ProcessDetails
deriving DecidableEq

/-- `cliStatus` from status.go. -/
structure CliStatus where
  state : String
deriving DecidableEq

/-- `cliDetails` from status.go. -/
structure CliDetails where
  id : String
  type : String
  status : CliStatus
deriving DecidableEq

/-- The `cliDetails` value built for one `api.Process`, exactly the record
literal inside the loop of `Format`. -/
def toCliDetails (info : ApiProcess) : CliDetails :=
  { id := info.details.id
    type := info.definition.type
    status := { state := info.details.status.label } }

/-- `Format` from status.go: unmarshal the bytes into a process list (a
failed unmarshal of invalid JSON is embedded as `none` and returns the error
value), then build the map keyed by the definition name of each process by
assigning entries in input order. -/
def Format (b : Option (List ApiProcess)) :
    Except String (List (String × CliDetails)) :=
  match b with
  | none => .error "error loading type returned from api"
  | some infos =>
    .ok (infos.foldl
      (fun result info => mapInsert result info.definition.name (toCliDetails info))
      [])

/-!
## Concrete values drawn from the tests of the repository
-/

/-- The hardware report of `TestExtractInterfaces`: network-class nodes at
depth 5 (wlan0, eth0) and a network-class node at depth 2, sibling of the
bus node directly under the root system node (vnet1). -/
def lshwTestDoc : List HWNode :=
  [HWNode.mk "system" none none
    [HWNode.mk "bus" none none
      [HWNode.mk "processor" none none
        [HWNode.mk "bridge" none none
          [HWNode.mk "network" (some "wlan0") (some "aa:bb:cc:dd:ee:ff") [],
           HWNode.mk "network" (some "eth0") (some "aa:bb:cc:dd:ee:f1") []]]],
     HWNode.mk "network" (some "vnet1") (some "aa:bb:cc:dd:ee:f2") []]]

/-- The mapping `TestExtractInterfaces` expects, in traversal order. -/
def tsnInterfaces : List (String × String) :=
  [("aa:bb:cc:dd:ee:ff", "wlan0"),
   ("aa:bb:cc:dd:ee:f1", "eth0"),
   ("aa:bb:cc:dd:ee:f2", "vnet1")]

/-- A well-formed report with two network-class nodes sharing one MAC but
carrying different interface names. -/
def dupMacDoc : List HWNode :=
  [HWNode.mk "network" (some "eth0") (some "aa:bb:cc:dd:ee:ff") [],
   HWNode.mk "network" (some "eth1") (some "aa:bb:cc:dd:ee:ff") []]

/-- The network memberships of `TestSetupNetworks`. -/
def tsnMemberships : List NetworkMembership :=
  [{ networkName := "WLAN", macAddress := "aa:bb:cc:dd:ee:ff",
     cidr := "192.168.1.1/24", vlanTag := 0 },
   { networkName := "LAN", macAddress := "aa:bb:cc:dd:ee:f1",
     cidr := "192.168.2.1/24", vlanTag := 42 },
   { networkName := "Virt", macAddress := "aa:bb:cc:dd:ee:f2",
     cidr := "192.168.3.1/24", vlanTag := 0 }]

/-- The fleet of `TestInstancesReturnsErrorIfPartialInstances`. -/
def mixedKnownNodes : List MaasInstance :=
  [{ id := "test-allocated" }, { id := "test2" }]

/-- The fleet of `TestStopInstancesStopsAndReleasesInstances`: test1 and
test2 are owned, test3 is not. -/
def stopTestState : FleetState :=
  { nodes := [{ id := "test1", owned := true }, { id := "test2", owned := true },
              { id := "test3", owned := false }]
    releaseBatches := [] }

/-- Two workload processes sharing one definition name. -/
def dupProcs : List ApiProcess :=
  [{ definition := { name := "procA", type := "docker" }
     details := { id := "id1", status := { label := "running" } } },
   { definition := { name := "procA", type := "kvm" }
     details := { id := "id2", status := { label := "stopped" } } }]

/-!
## Helper lemmas: the association-list map theory
-/

theorem optOr_none_right {α : Type} (a : Option α) : optOr a none = a := by
  cases a <;> rfl

theorem optOr_none_left {α : Type} (b : Option α) : optOr none b = b := rfl

theorem optOr_some_left {α : Type} (v : α) (b : Option α) :
    optOr (some v) b = some v := rfl

theorem optOr_assoc {α : Type} (a b c : Option α) :
    optOr (optOr a b) c = optOr a (optOr b c) := by
  cases a <;> rfl

theorem mapGet_mapInsert_self {α : Type} (m : List (String × α)) (k : String) (v : α) :
    mapGet (mapInsert m k v) k = some v := by
  induction m with
  | nil => simp [mapInsert, mapGet]
  | cons p m ih =>
    obtain ⟨k1, v1⟩ := p
    by_cases h : k1 = k
    · simp [mapInsert, h, mapGet]
    · simp [mapInsert, h, mapGet, Ne.symm h, ih]

theorem mapGet_mapInsert_ne {α : Type} (m : List (String × α)) (k k1 : String) (v : α)
    (h : k1 ≠ k) : mapGet (mapInsert m k v) k1 = mapGet m k1 := by
  induction m with
  | nil => simp [mapInsert, mapGet, h]
  | cons p m ih =>
    obtain ⟨k2, v2⟩ := p
    by_cases h2 : k2 = k
    · subst h2
      simp [mapInsert, mapGet, h, ih]
    · by_cases h3 : k1 = k2 <;> simp [mapInsert, h2, mapGet, h3, ih]

theorem mapGet_append {α : Type} (a b : List (String × α)) (k : String) :
    mapGet (a ++ b) k = optOr (mapGet a k) (mapGet b k) := by
  induction a with
  | nil => simp [mapGet, optOr]
  | cons p a ih =>
    obtain ⟨k1, v1⟩ := p
    by_cases h : k = k1 <;> simp [mapGet, h, ih, optOr]

theorem mapKeys_mapInsert {α : Type} (m : List (String × α)) (k : String) (v : α) :
    mapKeys (mapInsert m k v) =
      if k ∈ mapKeys m then mapKeys m else mapKeys m ++ [k] := by
  induction m with
  | nil => simp [mapInsert, mapKeys]
  | cons p m ih =>
    obtain ⟨k1, v1⟩ := p
    by_cases h : k1 = k
    · simp [mapInsert, h, mapKeys]
    · have hne : ¬ k = k1 := fun hh => h hh.symm
      simp only [mapInsert, if_neg h, mapKeys, List.map_cons, List.mem_cons, hne,
        false_or] at ih ⊢
      rw [ih]
      by_cases hm : k ∈ m.map Prod.fst
      · simp [hm]
      · simp [hm]

theorem nodup_mapKeys_mapInsert {α : Type} (m : List (String × α)) (k : String) (v : α)
    (h : (mapKeys m).Nodup) : (mapKeys (mapInsert m k v)).Nodup := by
  rw [mapKeys_mapInsert]
  by_cases hm : k ∈ mapKeys m
  · simpa [hm] using h
  · simp only [if_neg hm]
    simpa [List.nodup_append, hm] using h

theorem mapGet_eq_none_iff {α : Type} (m : List (String × α)) (k : String) :
    mapGet m k = none ↔ k ∉ mapKeys m := by
  induction m with
  | nil => simp [mapGet, mapKeys]
  | cons p m ih =>
    obtain ⟨k1, v1⟩ := p
    by_cases h : k = k1 <;> simp [mapGet, mapKeys, h, ih]

theorem keyCount_eq_zero_iff {α : Type} (m : List (String × α)) (k : String) :
    keyCount m k = 0 ↔ k ∉ mapKeys m := by
  induction m with
  | nil => simp [keyCount, mapKeys]
  | cons p m ih =>
    obtain ⟨k1, v1⟩ := p
    simp only [keyCount, List.countP_cons, mapKeys, List.map_cons, List.mem_cons] at ih ⊢
    by_cases h : k1 = k
    · simp [h]
    · have hne : ¬ k = k1 := fun hh => h hh.symm
      simp [h, hne, ih]

theorem keyCount_eq_one_of_nodup {α : Type} (m : List (String × α)) (k : String)
    (hn : (mapKeys m).Nodup) (hmem : k ∈ mapKeys m) : keyCount m k = 1 := by
  induction m with
  | nil => simp [mapKeys] at hmem
  | cons p m ih =>
    obtain ⟨k1, v1⟩ := p
    simp only [mapKeys, List.map_cons, List.nodup_cons] at hn
    simp only [mapKeys, List.map_cons, List.mem_cons] at hmem
    simp only [keyCount, List.countP_cons, decide_eq_true_eq]
    rcases hmem with rfl | hmem
    · have h0 : keyCount m k = 0 :=
        (keyCount_eq_zero_iff m k).mpr (by simpa [mapKeys] using hn.1)
      simp only [keyCount] at h0
      simp [h0]
    · have hne : ¬ k1 = k := fun hh => hn.1 (hh ▸ hmem)
      have h1 := ih hn.2 hmem
      simp only [keyCount] at h1
      simp [h1, hne]

theorem mapGet_insertEntries {α : Type} (l : List (String × α))
    (m0 : List (String × α)) (k : String) :
    mapGet (insertEntries m0 l) k = optOr (lastGet l k) (mapGet m0 k) := by
  induction l generalizing m0 with
  | nil => simp [insertEntries, lastGet, optOr]
  | cons p l ih =>
    obtain ⟨k1, v1⟩ := p
    simp only [insertEntries, List.foldl_cons] at *
    rw [ih, lastGet, optOr_assoc]
    by_cases h : k = k1
    · subst h
      simp [optOr, mapGet_mapInsert_self]
    · simp [optOr, h, mapGet_mapInsert_ne _ _ _ _ h]

theorem nodup_mapKeys_insertEntries {α : Type} (l : List (String × α))
    (m0 : List (String × α)) (h : (mapKeys m0).Nodup) :
    (mapKeys (insertEntries m0 l)).Nodup := by
  induction l generalizing m0 with
  | nil => simpa [insertEntries] using h
  | cons p l ih =>
    simp only [insertEntries, List.foldl_cons] at *
    exact ih _ (nodup_mapKeys_mapInsert _ _ _ h)

theorem optOr_eq_none_iff {α : Type} (a b : Option α) :
    optOr a b = none ↔ a = none ∧ b = none := by
  cases a <;> simp [optOr]

theorem lastGet_eq_none_iff {α : Type} (l : List (String × α)) (k : String) :
    lastGet l k = none ↔ ∀ p ∈ l, p.1 ≠ k := by
  induction l with
  | nil => simp [lastGet]
  | cons p l ih =>
    obtain ⟨k1, v1⟩ := p
    simp only [lastGet, optOr_eq_none_iff, ih, List.mem_cons]
    by_cases h : k = k1
    · subst h
      simp only [if_pos rfl]
      constructor
      · rintro ⟨-, h2⟩
        cases h2
      · intro hall
        exact absurd rfl (hall (k, v1) (Or.inl rfl))
    · simp only [if_neg h, and_true]
      constructor
      · intro h1 q hq
        rcases hq with rfl | hq
        · exact fun hh => h hh.symm
        · exact h1 q hq
      · intro hall q hq
        exact hall q (Or.inr hq)

/-!
## Helper lemmas: the hardware-report walk and the translators
-/

/-- The recursive-descent walk is the left-to-right insertion of the
traversal-order entry sequence into the accumulator map. -/
theorem walkNodes_eq (ns : List HWNode) (acc : List (String × String)) :
    walkNodes acc ns = insertEntries acc (netEntriesList ns) := by
  induction ns using netEntriesList.induct generalizing acc with
  | case1 => simp [walkNodes, netEntriesList, insertEntries]
  | case2 cls ln ser children rest ih1 ih2 =>
    simp [walkNodes, netEntriesList, insertEntries, ih1, ih2, List.foldl_append]

theorem length_filterMap_eq_countP {α β : Type} (f : α → Option β) (l : List α) :
    (l.filterMap f).length = l.countP (fun x => (f x).isSome) := by
  induction l with
  | nil => simp
  | cons x l ih =>
    cases hf : f x <;> simp [List.filterMap_cons, hf, ih, List.countP_cons]

/-- The constraint translator emits no parameter under any name other than
the four recognized ones; in particular none for CPU power or root disk. -/
theorem convertConstraints_get_other (cons : ConstraintsValue) (k : String)
    (h1 : k ≠ "arch") (h2 : k ≠ "cpu_count") (h3 : k ≠ "mem") (h4 : k ≠ "tags") :
    mapGet (convertConstraints cons) k = none := by
  obtain ⟨a, c, m, p, r, t⟩ := cons
  cases a <;> cases c <;> cases m <;> rcases t with _ | (_ | ⟨t0, ts⟩) <;>
    simp [convertConstraints, mapGet_append, mapGet, optOr, h1, h2, h3, h4]

/-- The network-filter translator only touches the `networks` and
`not_networks` parameters. -/
theorem addNetworks_get_other (vals : List (String × List String))
    (inc exc : List String) (k : String)
    (h1 : k ≠ "networks") (h2 : k ≠ "not_networks") :
    mapGet (addNetworks vals inc exc) k = mapGet vals k := by
  cases inc <;> cases exc <;>
    simp [addNetworks, mapGet_append, mapGet, h1, h2, optOr_none_right]

/-!
## Claim theorems
-/

/-- C5: for every constraint set, `convertConstraints` maps the
architecture, CPU-core-count, memory, and tag-list fields each to exactly
one named query parameter (`arch`, `cpu_count`, `mem`, `tags`), joins
multiple tags with a comma into a single value, produces no parameter at all
for the CPU-power and root-disk fields, and produces no parameter for any
absent field — in particular never an empty-string parameter. -/
theorem c5_convertConstraints (cons : ConstraintsValue) :
    mapGet (convertConstraints cons) "arch" = cons.arch.map (fun a => [a]) ∧
    mapGet (convertConstraints cons) "cpu_count" =
      cons.cpuCores.map (fun c => [toString c]) ∧
    mapGet (convertConstraints cons) "mem" = cons.mem.map (fun m => [toString m]) ∧
    mapGet (convertConstraints cons) "tags" =
      (match cons.tags with
       | some (t :: ts) => some [String.intercalate "," (t :: ts)]
       | _ => none) ∧
    mapGet (convertConstraints cons) "cpu_power" = none ∧
    mapGet (convertConstraints cons) "root_disk" = none ∧
    ∀ k, k ∉ ["arch", "cpu_count", "mem", "tags"] →
      mapGet (convertConstraints cons) k = none := by
  refine ⟨?_, ?_, ?_, ?_, ?_, ?_, ?_⟩
  · obtain ⟨a, c, m, p, r, t⟩ := cons
    cases a <;> cases c <;> cases m <;> rcases t with _ | (_ | ⟨t0, ts⟩) <;>
      simp [convertConstraints, mapGet_append, mapGet, optOr]
  · obtain ⟨a, c, m, p, r, t⟩ := cons
    cases a <;> cases c <;> cases m <;> rcases t with _ | (_ | ⟨t0, ts⟩) <;>
      simp [convertConstraints, mapGet_append, mapGet, optOr]
  · obtain ⟨a, c, m, p, r, t⟩ := cons
    cases a <;> cases c <;> cases m <;> rcases t with _ | (_ | ⟨t0, ts⟩) <;>
      simp [convertConstraints, mapGet_append, mapGet, optOr]
  · obtain ⟨a, c, m, p, r, t⟩ := cons
    cases a <;> cases c <;> cases m <;> rcases t with _ | (_ | ⟨t0, ts⟩) <;>
      simp [convertConstraints, mapGet_append, mapGet, optOr]
  · exact convertConstraints_get_other cons "cpu_power" (by decide) (by decide)
      (by decide) (by decide)
  · exact convertConstraints_get_other cons "root_disk" (by decide) (by decide)
      (by decide) (by decide)
  · intro k hk
    simp only [List.mem_cons, List.not_mem_nil, or_false, not_or] at hk
    exact convertConstraints_get_other cons k hk.1 hk.2.1 hk.2.2.1 hk.2.2.2

/-- C5 witness: the full constraint set of `TestConvertConstraints` maps to
exactly the recognized parameters and drops CPU power and root disk. -/
theorem c5_convertConstraints_witness :
    mapGet (convertConstraints
      { arch := some "arm", cpuCores := some 4, mem := some 1024,
        cpuPower := some 1024, rootDisk := some 8192,
        tags := some ["foo", "bar"] }) "arch" = some ["arm"] ∧
    mapGet (convertConstraints
      { arch := some "arm", cpuCores := some 4, mem := some 1024,
        cpuPower := some 1024, rootDisk := some 8192,
        tags := some ["foo", "bar"] }) "tags" = some ["foo,bar"] ∧
    mapGet (convertConstraints
      { arch := some "arm", cpuCores := some 4, mem := some 1024,
        cpuPower := some 1024, rootDisk := some 8192,
        tags := some ["foo", "bar"] }) "cpu_power" = none := by
  obtain ⟨h1, h2, h3, h4, h5, h6, h7⟩ := c5_convertConstraints
    { arch := some "arm", cpuCores := some 4, mem := some 1024,
      cpuPower := some 1024, rootDisk := some 8192, tags := some ["foo", "bar"] }
  refine ⟨by simpa using h1, ?_, h5⟩
  rw [h4]
  rfl

/-- C6: for every pair of include and exclude network-name sets,
`addNetworks` emits a `networks` parameter whose values are the included
names and a `not_networks` parameter whose values are the excluded names,
each parameter omitted entirely when its set is empty, the values within
each parameter in input iteration order. -/
theorem c6_addNetworks (inc exc : List String) :
    mapGet (addNetworks [] inc exc) "networks" =
      (if inc = [] then none else some inc) ∧
    mapGet (addNetworks [] inc exc) "not_networks" =
      (if exc = [] then none else some exc) ∧
    ∀ k, k ≠ "networks" → k ≠ "not_networks" →
      mapGet (addNetworks [] inc exc) k = none := by
  refine ⟨?_, ?_, ?_⟩
  · cases inc <;> cases exc <;>
      simp [addNetworks, mapGet_append, mapGet, optOr_none_right, optOr]
  · cases inc <;> cases exc <;>
      simp [addNetworks, mapGet_append, mapGet, optOr_none_right, optOr]
  · intro k h1 h2
    rw [addNetworks_get_other [] inc exc k h1 h2]
    rfl

/-- C6 witness: the two example sets of spec section 8. -/
theorem c6_addNetworks_witness :
    mapGet (addNetworks [] ["included_net_1", "included_net_2"]
      ["excluded_net_1", "excluded_net_2"]) "networks" =
        some ["included_net_1", "included_net_2"] ∧
    mapGet (addNetworks [] ["included_net_1", "included_net_2"]
      ["excluded_net_1", "excluded_net_2"]) "not_networks" =
        some ["excluded_net_1", "excluded_net_2"] ∧
    mapGet (addNetworks [] ["included_net_1", "included_net_2"]
      ["excluded_net_1", "excluded_net_2"]) "arch" = none := by
  obtain ⟨h1, h2, h3⟩ := c6_addNetworks ["included_net_1", "included_net_2"]
    ["excluded_net_1", "excluded_net_2"]
  exact ⟨by simpa using h1, by simpa using h2, h3 "arch" (by decide) (by decide)⟩

/-- C7: for every call to `acquireNode`, the acquire request carries a
`name` parameter equal to the hostname hint exactly when the hint is
non-empty, and always carries the agent-identifying orchestrator
`agent_name` tag. -/
theorem c7_acquireNodeParams (hint : String) (cons : ConstraintsValue)
    (inc exc : List String) (agentName : String) :
    mapGet (acquireNodeParams hint cons inc exc agentName) "agent_name" =
      some [agentName] ∧
    mapGet (acquireNodeParams hint cons inc exc agentName) "name" =
      (if hint = "" then none else some [hint]) := by
  have hbase1 : mapGet (addNetworks (convertConstraints cons) inc exc)
      "agent_name" = none := by
    rw [addNetworks_get_other _ _ _ _ (by decide) (by decide)]
    exact convertConstraints_get_other cons "agent_name" (by decide) (by decide)
      (by decide) (by decide)
  have hbase2 : mapGet (addNetworks (convertConstraints cons) inc exc)
      "name" = none := by
    rw [addNetworks_get_other _ _ _ _ (by decide) (by decide)]
    exact convertConstraints_get_other cons "name" (by decide) (by decide)
      (by decide) (by decide)
  constructor
  · simp [acquireNodeParams, mapGet_append, hbase1, mapGet, optOr]
  · by_cases h : hint = "" <;>
      simp [acquireNodeParams, mapGet_append, hbase2, mapGet, h, optOr,
        optOr_none_right]

/-- C9: `readStateServerInstances` fails with `ErrNotBootstrapped` exactly
when no bootstrap-state record exists in durable storage, and for every
identifier list written by `writeState` — the empty list included — a
subsequent read returns exactly the written identifiers with no error. -/
theorem c9_stateServerInstances :
    (∀ stor : Option (List String),
      readStateServerInstances stor = .error EnvErr.errNotBootstrapped ↔
        stor = none) ∧
    (∀ (stor : Option (List String)) (ids : List String),
      readStateServerInstances (writeState stor ids) = .ok ids) ∧
    readStateServerInstances (writeState none []) = .ok [] := by
  refine ⟨?_, ?_, rfl⟩
  · intro stor
    cases stor <;> simp [readStateServerInstances]
  · intro stor ids
    rfl

/-- C2: for every id list in which at least one id resolves to a known node
and at least one does not, the lookup returns a result slice of the same
length as the input, with the node of each resolved id at its requested position
and an absent marker at every unresolved position, and fails with
`ErrPartialInstances`. -/
theorem c2_instancesLookup (known : List MaasInstance) (ids : List String)
    (hsome : ∃ i ∈ ids, (resolveOne known i).isSome = true)
    (hnone : ∃ i ∈ ids, resolveOne known i = none) :
    ∃ res, instancesLookup known ids = (some res, some EnvErr.errPartialInstances) ∧
      res.length = ids.length ∧
      (∀ j : Nat, res[j]? = (ids[j]?).map (resolveOne known)) ∧
      ∀ i ∈ ids, resolveOne known i = none → (none : Option MaasInstance) ∈ res := by
  obtain ⟨i0, hi0, hr0⟩ := hsome
  obtain ⟨i1, hi1, hr1⟩ := hnone
  have hne : ¬ ids = [] := by
    rintro rfl
    exact absurd hi0 (List.not_mem_nil i0)
  have hall : ¬ ((ids.map (resolveOne known)).all fun r => r.isNone) = true := by
    intro hcontra
    have := (List.all_eq_true.mp hcontra) (resolveOne known i0)
      (List.mem_map_of_mem _ hi0)
    rw [Option.isNone_iff_eq_none] at this
    rw [this] at hr0
    cases hr0
  have hany : ((ids.map (resolveOne known)).any fun r => r.isNone) = true := by
    refine List.any_eq_true.mpr ⟨resolveOne known i1, List.mem_map_of_mem _ hi1, ?_⟩
    simp [hr1]
  refine ⟨ids.map (resolveOne known), ?_, by simp, ?_, ?_⟩
  · simp only [instancesLookup, if_neg hne, hall, if_false, hany, if_true,
      Bool.false_eq_true]
  · intro j
    simp [List.getElem?_map]
  · intro i hi hri
    have := List.mem_map_of_mem (resolveOne known) hi
    rw [hri] at this
    exact this

/-- C2 witness: the fleet of `TestInstancesReturnsErrorIfPartialInstances`
with one known and one unknown id. -/
theorem c2_instancesLookup_witness :
    ∃ res, instancesLookup mixedKnownNodes ["test-allocated", "unknown systemID"] =
        (some res, some EnvErr.errPartialInstances) ∧
      res.length = 2 := by
  obtain ⟨res, hres, hlen, -, -⟩ := c2_instancesLookup mixedKnownNodes
    ["test-allocated", "unknown systemID"]
    ⟨"test-allocated", by decide, by decide⟩
    ⟨"unknown systemID", by decide, by decide⟩
  exact ⟨res, hres, hlen⟩

/-- C3: for every call whose id list is empty (Go nil and empty slices
both embed as the empty list) or contains only ids that resolve to no known
node, the lookup fails with `ErrNoInstances` and returns no nodes — a nil
result. -/
theorem c3_instancesLookup (known : List MaasInstance) (ids : List String)
    (h : ids = [] ∨ ∀ i ∈ ids, resolveOne known i = none) :
    instancesLookup known ids = (none, some EnvErr.errNoInstances) := by
  by_cases hne : ids = []
  · simp [instancesLookup, hne]
  · have hall : ((ids.map (resolveOne known)).all fun r => r.isNone) = true := by
      refine List.all_eq_true.mpr ?_
      intro r hr
      obtain ⟨i, hi, rfl⟩ := List.mem_map.mp hr
      rcases h with rfl | h
      · exact absurd hi (List.not_mem_nil i)
      · simp [h i hi]
    simp only [instancesLookup, if_neg hne, hall, if_true]

/-- C3 witness: the empty id list of
`TestInstancesReturnsErrNoInstancesIfEmptyParameter`, and the unknown-only
list of `TestInstancesReturnsErrNoInstancesIfNoneFound`. -/
theorem c3_instancesLookup_witness :
    instancesLookup mixedKnownNodes [] = (none, some EnvErr.errNoInstances) ∧
    instancesLookup mixedKnownNodes ["unknown"] =
      (none, some EnvErr.errNoInstances) := by
  refine ⟨c3_instancesLookup mixedKnownNodes [] (Or.inl rfl),
    c3_instancesLookup mixedKnownNodes ["unknown"] (Or.inr ?_)⟩
  decide

/-- C8: for every node list mixing nodes currently owned by the
orchestrator and nodes not owned by it, the release path issues a single
bulk release call, reports no error, releases every owned node named in the
list, and leaves the not-owned nodes untouched. -/
theorem c8_stopInstances (st : FleetState) (ids : List String)
    (howned : ∃ n ∈ st.nodes, n.id ∈ ids ∧ n.owned = true)
    (hfree : ∃ n ∈ st.nodes, n.id ∈ ids ∧ n.owned = false) :
    ∃ st2, stopInstances st ids = (st2, none) ∧
      st2.releaseBatches = st.releaseBatches ++ [ids] ∧
      st2.nodes = st.nodes.map (fun n =>
        if n.id ∈ ids then { n with owned := false } else n) ∧
      (∀ n ∈ st2.nodes, n.id ∈ ids → n.owned = false) ∧
      ∀ n ∈ st.nodes, n.owned = false ∨ n.id ∉ ids → n ∈ st2.nodes := by
  obtain ⟨n0, hn0, hidn0, hon0⟩ := howned
  have hne : ¬ ids = [] := by
    rintro rfl
    exact absurd hidn0 (List.not_mem_nil n0.id)
  refine ⟨⟨st.nodes.map (fun n =>
      if n.id ∈ ids then { n with owned := false } else n),
      st.releaseBatches ++ [ids]⟩,
    by simp only [stopInstances, if_neg hne], rfl, rfl, ?_, ?_⟩
  · intro n hn hnid
    obtain ⟨n1, hn1, rfl⟩ := List.mem_map.mp hn
    by_cases h : n1.id ∈ ids
    · simp [h]
    · simp only [if_neg h] at hnid ⊢
      exact absurd hnid h
  · intro n hn hcase
    have hself : (if n.id ∈ ids then { n with owned := false } else n) = n := by
      rcases hcase with hfalse | hnid
      · obtain ⟨i, o⟩ := n
        simp only at hfalse
        subst hfalse
        split <;> rfl
      · exact if_neg hnid
    rw [← hself]
    exact List.mem_map_of_mem _ hn

/-- C8 witness: `TestStopInstancesStopsAndReleasesInstances` — test1 and
test2 owned, test3 not owned, all three released in one bulk call with no
error. -/
theorem c8_stopInstances_witness :
    ∃ st2, stopInstances stopTestState ["test1", "test2", "test3"] = (st2, none) ∧
      st2.releaseBatches = [["test1", "test2", "test3"]] ∧
      ∀ n ∈ st2.nodes, n.id ∈ ["test1", "test2", "test3"] → n.owned = false := by
  obtain ⟨st2, h1, h2, -, h4, -⟩ := c8_stopInstances stopTestState
    ["test1", "test2", "test3"]
    ⟨{ id := "test1", owned := true }, by decide, by decide, rfl⟩
    ⟨{ id := "test3", owned := false }, by decide, by decide, rfl⟩
  exact ⟨st2, h1, by simpa [stopTestState] using h2, h4⟩

/-- C1: for every node and include-set, `setupNetworks` emits exactly one
descriptor per network membership whose MAC address appears in the mapping
extracted from the hardware report of the node; a descriptor has
`disabled = true` exactly when the include-set is non-empty and the
network name of the membership is not in it; memberships whose MAC matches no
discovered interface are omitted from the output without error, and when no
membership matches any interface the result is an empty sequence with no
error. -/
theorem c1_setupNetworks (report : Option (List HWNode))
    (memberships : List NetworkMembership) (inc : List String)
    (interfaces : List (String × String))
    (h : extractInterfaces report = .ok interfaces) :
    ∃ l, setupNetworks report memberships inc = .ok l ∧
      l.length = memberships.countP
        (fun mem => (mapGet interfaces mem.macAddress).isSome) ∧
      (∀ mem ∈ memberships, ∀ ifname,
        mapGet interfaces mem.macAddress = some ifname →
          mkNetworkInfo inc mem ifname ∈ l ∧
          (mkNetworkInfo inc mem ifname).disabled =
            decide (inc ≠ [] ∧ mem.networkName ∉ inc)) ∧
      (∀ d ∈ l, ∃ mem ∈ memberships, ∃ ifname,
        mapGet interfaces mem.macAddress = some ifname ∧
        d = mkNetworkInfo inc mem ifname) ∧
      ((∀ mem ∈ memberships, mapGet interfaces mem.macAddress = none) →
        l = []) := by
  refine ⟨memberships.filterMap (resolveMembership interfaces inc),
    by simp [setupNetworks, h], ?_, ?_, ?_, ?_⟩
  · rw [length_filterMap_eq_countP]
    congr 1
    funext mem
    cases hg : mapGet interfaces mem.macAddress <;> simp [resolveMembership, hg]
  · intro mem hmem ifname hif
    refine ⟨List.mem_filterMap.mpr ⟨mem, hmem, ?_⟩, rfl⟩
    simp [resolveMembership, hif]
  · intro d hd
    obtain ⟨mem, hmem, hfd⟩ := List.mem_filterMap.mp hd
    cases hg : mapGet interfaces mem.macAddress with
    | none => simp [resolveMembership, hg] at hfd
    | some ifname =>
      refine ⟨mem, hmem, ifname, hg, ?_⟩
      simp [resolveMembership, hg] at hfd
      exact hfd.symm
  · intro hall
    refine List.filterMap_eq_nil_iff.mpr ?_
    intro mem hmem
    simp [resolveMembership, hall mem hmem]

/-- C1 witness: the node of `TestSetupNetworks` — three discovered
interfaces, three matching memberships, include-set LAN and Virt. -/
theorem c1_setupNetworks_witness :
    extractInterfaces (some lshwTestDoc) = Except.ok tsnInterfaces ∧
    ∃ l, setupNetworks (some lshwTestDoc) tsnMemberships ["LAN", "Virt"] =
        Except.ok l ∧ l.length = 3 := by
  have h : extractInterfaces (some lshwTestDoc) = Except.ok tsnInterfaces := by
    simp [extractInterfaces, lshwTestDoc, walkNodes, insertEntries, nodeEntry,
      mapInsert, tsnInterfaces]
  obtain ⟨l, hl, hlen, -, -, -⟩ := c1_setupNetworks (some lshwTestDoc)
    tsnMemberships ["LAN", "Virt"] tsnInterfaces h
  refine ⟨h, l, hl, ?_⟩
  rw [hlen]
  decide

/-- C4 counterexample: a well-formed report with two network-class nodes
carrying the same MAC but different interface names; the mapping holds one
entry carrying the later name, not one entry per qualifying node, so the
claim fails at this input. -/
theorem c4_counterexample :
    extractInterfaces (some dupMacDoc) =
      Except.ok [("aa:bb:cc:dd:ee:ff", "eth1")] ∧
    mapGet [("aa:bb:cc:dd:ee:ff", "eth1")] "aa:bb:cc:dd:ee:ff" ≠ some "eth0" := by
  constructor
  · simp [extractInterfaces, dupMacDoc, walkNodes, insertEntries, nodeEntry,
      mapInsert]
  · decide

/-- C4 (amended): for every well-formed hardware report,
`extractInterfaces` returns, without error, a mapping with one entry per
DISTINCT MAC among the nodes that carry the network classification together
with both the interface-name and serial fields, regardless of the depth of the
node in the document; the entry holds the interface name of the last such
node in traversal order (last occurrence wins on duplicate MACs); on the
report of `TestExtractInterfaces` — network-class nodes at depths 5 and 2,
the latter a sibling of the top bus node — all three mappings are
returned. -/
theorem c4_extractInterfaces (nodes : List HWNode) :
    ∃ m, extractInterfaces (some nodes) = Except.ok m ∧
      (mapKeys m).Nodup ∧
      (∀ mac, mapGet m mac = lastGet (netEntriesList nodes) mac) ∧
      (∀ mac name, (mac, name) ∈ netEntriesList nodes → keyCount m mac = 1) ∧
      extractInterfaces (some lshwTestDoc) = Except.ok tsnInterfaces := by
  have hnodup : (mapKeys (walkNodes [] nodes)).Nodup := by
    rw [walkNodes_eq]
    exact nodup_mapKeys_insertEntries _ _ (by simp [mapKeys])
  refine ⟨walkNodes [] nodes, rfl, hnodup, ?_, ?_, ?_⟩
  · intro mac
    rw [walkNodes_eq, mapGet_insertEntries]
    simp [mapGet, optOr_none_right]
  · intro mac name hmem
    have hget : mapGet (walkNodes [] nodes) mac ≠ none := by
      rw [walkNodes_eq, mapGet_insertEntries]
      have hlast : lastGet (netEntriesList nodes) mac ≠ none := by
        rw [Ne, lastGet_eq_none_iff]
        intro hforall
        exact hforall (mac, name) hmem rfl
      cases hl : lastGet (netEntriesList nodes) mac
      · exact absurd hl hlast
      · simp [optOr]
    have hkeys : mac ∈ mapKeys (walkNodes [] nodes) := by
      by_contra hcontra
      exact hget ((mapGet_eq_none_iff _ _).mpr hcontra)
    exact keyCount_eq_one_of_nodup _ _ hnodup hkeys
  · simp [extractInterfaces, lshwTestDoc, walkNodes, insertEntries, nodeEntry,
      mapInsert, tsnInterfaces]

/-- C4 witness: on the `TestExtractInterfaces` report the root-sibling
MAC of that network node has exactly one entry. -/
theorem c4_extractInterfaces_witness :
    ∃ m, extractInterfaces (some lshwTestDoc) = Except.ok m ∧
      keyCount m "aa:bb:cc:dd:ee:f2" = 1 := by
  obtain ⟨m, hm, -, -, hcount, -⟩ := c4_extractInterfaces lshwTestDoc
  refine ⟨m, hm, hcount "aa:bb:cc:dd:ee:f2" "vnet1" ?_⟩
  simp [netEntriesList, lshwTestDoc, nodeEntry]

/-- C10: for every valid JSON input to `Format` the result is a map keyed
by the definition name of each process — when several processes share a
definition name the map holds exactly one entry for it, with the details of
the last such process in input order — and an input that is not valid JSON
yields an error value instead of a map. -/
theorem c10_Format (infos : List ApiProcess) (name : String)
    (h : name ∈ infos.map (fun p => p.definition.name)) :
    (∃ m, Format (some infos) = Except.ok m ∧
      keyCount m name = 1 ∧
      mapGet m name =
        lastGet (infos.map (fun p => (p.definition.name, toCliDetails p))) name) ∧
    Format none = Except.error "error loading type returned from api" := by
  have hfold : (infos.foldl (fun result info =>
      mapInsert result info.definition.name (toCliDetails info)) []) =
      insertEntries []
        (infos.map (fun p => (p.definition.name, toCliDetails p))) := by
    rw [insertEntries, List.foldl_map]
  obtain ⟨p0, hp0, hpn⟩ := List.mem_map.mp h
  have hpair : (name, toCliDetails p0) ∈
      infos.map (fun p => (p.definition.name, toCliDetails p)) := by
    rw [← hpn]
    exact List.mem_map_of_mem _ hp0
  have hlast : lastGet
      (infos.map (fun p => (p.definition.name, toCliDetails p))) name ≠ none := by
    rw [Ne, lastGet_eq_none_iff]
    intro hforall
    exact hforall (name, toCliDetails p0) hpair rfl
  have hget : mapGet (infos.foldl (fun result info =>
      mapInsert result info.definition.name (toCliDetails info)) []) name =
      lastGet (infos.map (fun p => (p.definition.name, toCliDetails p))) name := by
    rw [hfold, mapGet_insertEntries]
    simp [mapGet, optOr_none_right]
  refine ⟨⟨_, rfl, ?_, hget⟩, rfl⟩
  have hnodup : (mapKeys (infos.foldl (fun result info =>
      mapInsert result info.definition.name (toCliDetails info)) [])).Nodup := by
    rw [hfold]
    exact nodup_mapKeys_insertEntries _ _ (by simp [mapKeys])
  have hkeys : name ∈ mapKeys (infos.foldl (fun result info =>
      mapInsert result info.definition.name (toCliDetails info)) []) := by
    by_contra hcontra
    rw [(mapGet_eq_none_iff _ _).mpr hcontra] at hget
    exact hlast hget.symm
  exact keyCount_eq_one_of_nodup _ _ hnodup hkeys

/-- C10 witness: two processes sharing the definition name `procA`; the map
has one entry for `procA` holding the details of the second process. -/
theorem c10_Format_witness :
    ∃ m, Format (some dupProcs) = Except.ok m ∧
      keyCount m "procA" = 1 ∧
      mapGet m "procA" = some (CliDetails.mk "id2" "kvm" (CliStatus.mk "stopped")) := by
  obtain ⟨⟨m, hm, hc, hg⟩, -⟩ := c10_Format dupProcs "procA" (by decide)
  refine ⟨m, hm, hc, ?_⟩
  rw [hg]
  decide

end JujuSpec
